import Mathlib

/-! The AI-band submission server (`server.js`).

A shallow embedding of the request handlers of `server.js` and the properties of
its submission store and catalog store.

* JavaScript strings are sequences of characters (`Str`).  Every pattern the
  handlers search for is ASCII and every character `trim` removes lies in the
  basic plane, so code points and UTF-16 code units behave alike here.
* A request body is parsed JSON: each field is a `JVal`, with `undefined` for a
  field that is absent.  A method call on a value that has no such method throws
  a `TypeError`; the embedding returns `none` there and the handler's `catch`
  turns it into a 500 response.
* Files are identified by the path `path.join` returns.  The submission file
  holds a list of `Submission` records, every other file either holds a list of
  `CatalogEntry` records or cannot be read as one.  A review may name the
  submission file itself as its catalog: the handler then reads and writes that
  one file twice, and `adminReview` follows it.  The clock (`Date.now()`, `new Date().toISOString()`),
  `process.env.ADMIN_TOKEN`, `__dirname` and `path.join` are inputs.
-/

namespace Server

/-- A JavaScript string. -/
abbrev Str := List Char

/-! ## JavaScript values and string methods -/

/-- A value of a parsed request body.  `undefined` stands for an absent field.
A number records only whether it is zero, the one thing the handlers observe. -/
inductive JVal where
  | undefined : JVal
  | null : JVal
  | bool (b : Bool) : JVal
  | num (isZero : Bool) : JVal
  | str (s : Str) : JVal
  | arr (items : List JVal) : JVal
  | obj (fields : List (Str × JVal)) : JVal

/-- JavaScript truthiness (`!v` is its negation): `undefined`, `null`, `false`,
zero and the empty string are falsy, everything else is truthy. -/
def truthy : JVal → Bool
  | .undefined => false
  | .null => false
  | .bool b => b
  | .num isZero => !isZero
  | .str s => !s.isEmpty
  | .arr _ => true
  | .obj _ => true

/-- The characters `String.prototype.trim` strips: ECMAScript WhiteSpace and
LineTerminator. -/
def isWhiteSpace (c : Char) : Bool :=
  c.toNat = 0x09 || c.toNat = 0x0A || c.toNat = 0x0B || c.toNat = 0x0C ||
  c.toNat = 0x0D || c.toNat = 0x20 || c.toNat = 0xA0 || c.toNat = 0x1680 ||
  (0x2000 ≤ c.toNat && c.toNat ≤ 0x200A) || c.toNat = 0x2028 ||
  c.toNat = 0x2029 || c.toNat = 0x202F || c.toNat = 0x205F ||
  c.toNat = 0x3000 || c.toNat = 0xFEFF

/-- The method `s.trim()` on a string: white space removed at both ends. -/
def trim (s : Str) : Str :=
  (s.dropWhile isWhiteSpace).rdropWhile isWhiteSpace

/-- The method `s.split(sep)` on a string, for a separator of one character:
the pieces between the occurrences of `sep`; the empty string gives `[""]`. -/
def split (sep : Char) : Str → List Str
  | [] => [[]]
  | c :: cs =>
    if c = sep then [] :: split sep cs
    else match split sep cs with
      | [] => [[c]]
      | p :: ps => (c :: p) :: ps

/-- The method `s.includes(pat)` on a string: `pat` occurs in `s` as a substring. -/
def includes : Str → Str → Bool
  | [], pat => pat.isEmpty
  | c :: cs, pat => pat.isPrefixOf (c :: cs) || includes cs pat

/-- The call `v.trim()` on a value: only a string has the method. -/
def JVal.trim : JVal → Option Str
  | .str s => some (Server.trim s)
  | _ => none

/-- The call `v.includes(pat)` on a value with a string `pat`: a string searches
for a substring, an array for an element equal to `pat`; nothing else has the
method. -/
def JVal.includes : JVal → Str → Option Bool
  | .str s, pat => some (Server.includes s pat)
  | .arr items, pat =>
    some (items.any fun v => match v with
      | .str s => decide (s = pat)
      | _ => false)
  | _, _ => none

/-! ## Data model -/

/-- The `status` of a submission (`// pending, approved, rejected`). -/
inductive Status where
  | pending
  | approved
  | rejected
  deriving DecidableEq, Repr

/-- A record of the submission file, as built by `POST /api/submit-ai-band`. -/
structure Submission where
  id : Str
  timestamp : Str
  artistName : Str
  youtubeUrl : Str
  verificationLinks : List Str
  otherPlatforms : List Str
  additionalInfo : Str
  status : Status
  reviewed : Bool
  deriving DecidableEq

/-- A record of a catalog file (`ai-bands.json`).  `none` is `null` for
`dateUpdated` and `comments`, and an absent property for the platform fields. -/
structure CatalogEntry where
  name : Str
  dateAdded : Str
  dateUpdated : Option Str
  comments : Option Str
  tags : List Str
  youtube : Str
  urls : List Str
  spotify : Option Str
  apple : Option Str
  tiktok : Option Str
  instagram : Option Str
  amazon : Option Str
  deriving DecidableEq

/-- What the process is started with: `process.env.ADMIN_TOKEN` (`none` when the
variable is not set), `__dirname`, and the library function `path.join`. -/
structure Env where
  ADMIN_TOKEN : Option Str
  dirname : Str
  pathJoin : Str → Str → Str

/-- The constant `SUBMISSIONS_FILE`. -/
def Env.SUBMISSIONS_FILE (env : Env) : Str :=
  env.pathJoin env.dirname "submissions.json".toList

/-- The files the handlers work on: the content of the submission file, and per
path the content of a file read as a catalog (`none`: missing or not a JSON
array of catalog entries, so that reading it throws).  `catalogs` is about the
files other than `SUBMISSIONS_FILE`; at that path the handlers read and write
`submissions`. -/
structure State where
  submissions : List Submission
  catalogs : Str → Option (List CatalogEntry)

/-- A file-system call made by a handler. -/
inductive FsOp where
  | read (path : Str)
  | write (path : Str)
  deriving DecidableEq

/-- The JSON document a handler answers with. -/
inductive RespBody where
  | error (msg : String)
  | submitted (submissionId : Str)
  | pendingCount (n : Nat)
  | submissions (all : List Submission)
  | reviewed (action : JVal)

/-- The result of a request: HTTP status, answer, the files afterwards, and the
file-system calls made, in order. -/
structure Outcome where
  status : Nat
  body : RespBody
  state : State
  log : List FsOp

/-! ## `POST /api/submit-ai-band` -/

/-- The body of `POST /api/submit-ai-band`. -/
structure SubmitBody where
  artistName : JVal
  youtubeUrl : JVal
  verificationLinks : JVal
  otherPlatforms : JVal
  additionalInfo : JVal

/-- The chain `.split("\n").map((link) => link.trim()).filter((link) => link)`
on a string. -/
def lines (s : Str) : List Str :=
  ((split '\n' s).map trim).filter fun link => !link.isEmpty

/-- The same chain on a value: `split` exists on a string only. -/
def JVal.lines : JVal → Option (List Str)
  | .str s => some (Server.lines s)
  | _ => none

/-- The conditional `otherPlatforms ? otherPlatforms.split("\n")... : []`. -/
def optionalLines (v : JVal) : Option (List Str) :=
  if truthy v then v.lines else some []

/-- The conditional `additionalInfo ? additionalInfo.trim() : ""`. -/
def optionalTrim (v : JVal) : Option Str :=
  if truthy v then v.trim else some []

/-- The object literal `submission` (lines 93 to 111); `none` when building it
throws.  `now` is `Date.now()`, `iso` is `new Date().toISOString()`. -/
def buildSubmission (now : Nat) (iso : Str) (b : SubmitBody) : Option Submission := do
  let artistName ← b.artistName.trim
  let youtubeUrl ← b.youtubeUrl.trim
  let verificationLinks ← b.verificationLinks.lines
  let otherPlatforms ← optionalLines b.otherPlatforms
  let additionalInfo ← optionalTrim b.additionalInfo
  pure {
    id := (Nat.repr now).toList
    timestamp := iso
    artistName := artistName
    youtubeUrl := youtubeUrl
    verificationLinks := verificationLinks
    otherPlatforms := otherPlatforms
    additionalInfo := additionalInfo
    status := .pending
    reviewed := false }

/-- The test `!youtubeUrl.includes("youtube.com") && !youtubeUrl.includes("youtu.be")`;
`none` when it throws. -/
def invalidYoutubeUrl (youtubeUrl : JVal) : Option Bool := do
  let hasCom ← youtubeUrl.includes "youtube.com".toList
  if !hasCom then
    let hasBe ← youtubeUrl.includes "youtu.be".toList
    pure (!hasBe)
  else
    pure false

/-- The 500 answer of a `catch` block. -/
def internalError (msg : String) (st : State) (log : List FsOp) : Outcome :=
  { status := 500, body := .error msg, state := st, log := log }

/-- The handler of `POST /api/submit-ai-band`. -/
def submitAiBand (env : Env) (now : Nat) (iso : Str) (st : State) (b : SubmitBody) : Outcome :=
  if !truthy b.artistName || !truthy b.youtubeUrl || !truthy b.verificationLinks then
    { status := 400
      body := .error "Missing required fields: artistName, youtubeUrl, verificationLinks"
      state := st, log := [] }
  else
    match invalidYoutubeUrl b.youtubeUrl with
    | none => internalError "Internal server error" st []
    | some true =>
      { status := 400, body := .error "Invalid YouTube URL", state := st, log := [] }
    | some false =>
      match buildSubmission now iso b with
      | none => internalError "Internal server error" st []
      | some submission =>
        { status := 200
          body := .submitted submission.id
          state := { st with submissions := st.submissions ++ [submission] }
          log := [.read env.SUBMISSIONS_FILE, .write env.SUBMISSIONS_FILE] }

/-! ## The administrative endpoints -/

/-- The template literal `Bearer ${process.env.ADMIN_TOKEN}`: an unset variable
is rendered as `undefined`. -/
def expectedAuth (env : Env) : Str :=
  "Bearer ".toList ++ (match env.ADMIN_TOKEN with
    | some token => token
    | none => "undefined".toList)

/-- The negation of the guard `!authToken || authToken !== expected` on the header
`req.headers.authorization` (`none` when the header is absent). -/
def authorized (env : Env) (authToken : Option Str) : Bool :=
  match authToken with
  | none => false
  | some t => !t.isEmpty && decide (t = expectedAuth env)

/-- The handler of `GET /api/check-pending`. -/
def checkPending (env : Env) (st : State) : Outcome :=
  { status := 200
    body := .pendingCount (st.submissions.filter fun s => s.status = .pending).length
    state := st
    log := [.read env.SUBMISSIONS_FILE] }

/-- The handler of `GET /api/admin/submissions`. -/
def adminSubmissions (env : Env) (st : State) (authToken : Option Str) : Outcome :=
  if !authorized env authToken then
    { status := 401, body := .error "Unauthorized", state := st, log := [] }
  else
    { status := 200, body := .submissions st.submissions, state := st
      log := [.read env.SUBMISSIONS_FILE] }

/-- The body of `POST /api/admin/submissions/:id`. -/
structure ReviewBody where
  action : JVal
  aiBandsPath : JVal

/-- The object literal `newEntry` (lines 182 to 190); `iso` is
`new Date().toISOString()`. -/
def newEntry (iso : Str) (submission : Submission) : CatalogEntry :=
  { name := submission.artistName
    dateAdded := (split 'T' iso).headD []
    dateUpdated := none
    comments := if submission.additionalInfo.isEmpty then none else some submission.additionalInfo
    tags := ["ai-generated".toList]
    youtube := submission.youtubeUrl
    urls := submission.verificationLinks
    spotify := none, apple := none, tiktok := none, instagram := none, amazon := none }

/-- The body of the `forEach` callback (lines 196 to 206) on one URL. -/
def addPlatform (entry : CatalogEntry) (platformUrl : Str) : CatalogEntry :=
  if includes platformUrl "spotify.com".toList then { entry with spotify := some platformUrl }
  else if includes platformUrl "music.apple.com".toList then { entry with apple := some platformUrl }
  else if includes platformUrl "tiktok.com".toList then { entry with tiktok := some platformUrl }
  else if includes platformUrl "instagram.com".toList then
    { entry with instagram := some platformUrl }
  else if includes platformUrl "amazon.com".toList then { entry with amazon := some platformUrl }
  else entry

/-- The entry pushed on approval: `newEntry` with the platform fields filled in
(lines 182 to 208). -/
def derivedEntry (iso : Str) (submission : Submission) : CatalogEntry :=
  if submission.otherPlatforms.length > 0 then
    submission.otherPlatforms.foldl addPlatform (newEntry iso submission)
  else
    newEntry iso submission

/-- The second argument of `path.join`: `aiBandsPath || "../ai-bands.json"`;
`none` when `path.join` rejects it for not being a string. -/
def catalogPathArg (aiBandsPath : JVal) : Option Str :=
  if truthy aiBandsPath then
    match aiBandsPath with
    | .str p => some p
    | _ => none
  else some "../ai-bands.json".toList

/-- The method `xs.findIndex(p)`: the position of the first element satisfying
`p`; `none` stands for the result `-1`. -/
def findIndex {α : Type} (p : α → Bool) : List α → Option Nat
  | [] => none
  | x :: xs => if p x then some 0 else (findIndex p xs).map (· + 1)

/-- The handler of `POST /api/admin/submissions/:id`.

When the catalog path is `SUBMISSIONS_FILE` itself, line 179 reads the stored
submissions as the catalog (any JSON array is taken), line 211 writes them back
with the new entry pushed, and line 221 then overwrites the same file with the
array `submissions` read at line 164: the pushed entry is lost and the file ends
as the submissions with the reviewed record rewritten. -/
def adminReview (env : Env) (iso : Str) (st : State) (authToken : Option Str) (id : Str)
    (b : ReviewBody) : Outcome :=
  if !authorized env authToken then
    { status := 401, body := .error "Unauthorized", state := st, log := [] }
  else
    let readSubs := [FsOp.read env.SUBMISSIONS_FILE]
    match findIndex (fun s => decide (s.id = id)) st.submissions with
    | none => { status := 404, body := .error "Submission not found", state := st, log := readSubs }
    | some submissionIndex =>
      match st.submissions[submissionIndex]? with
      | none => internalError "Internal server error" st readSubs
      | some submission =>
        let done (cats : Str → Option (List CatalogEntry)) (status : Status) (log : List FsOp) :
            Outcome :=
          { status := 200
            body := .reviewed b.action
            state :=
              { submissions :=
                  st.submissions.set submissionIndex
                    { submission with status := status, reviewed := true }
                catalogs := cats }
            log := log ++ [.write env.SUBMISSIONS_FILE] }
        match b.action with
        | .str action =>
          if action = "approve".toList then
            match catalogPathArg b.aiBandsPath with
            | none => internalError "Internal server error" st readSubs
            | some p =>
              let aiBandsFile := env.pathJoin env.dirname p
              if aiBandsFile = env.SUBMISSIONS_FILE then
                done st.catalogs .approved (readSubs ++ [.read aiBandsFile, .write aiBandsFile])
              else
                match st.catalogs aiBandsFile with
                | none =>
                  internalError "Internal server error" st (readSubs ++ [.read aiBandsFile])
                | some aiBands =>
                  done (Function.update st.catalogs aiBandsFile
                      (some (aiBands ++ [derivedEntry iso submission])))
                    .approved (readSubs ++ [.read aiBandsFile, .write aiBandsFile])
          else if action = "reject".toList then
            done st.catalogs .rejected readSubs
          else
            done st.catalogs submission.status readSubs
        | _ => done st.catalogs submission.status readSubs

/-! ## Sequences of requests -/

/-- A request to one of the API endpoints, with the clock readings its handler
takes. -/
inductive Request where
  | submit (now : Nat) (iso : Str) (body : SubmitBody)
  | checkPending
  | adminSubmissions (authToken : Option Str)
  | adminReview (iso : Str) (authToken : Option Str) (id : Str) (body : ReviewBody)

/-- The handler a request is routed to. -/
def handle (env : Env) (st : State) : Request → Outcome
  | .submit now iso body => submitAiBand env now iso st body
  | .checkPending => checkPending env st
  | .adminSubmissions authToken => adminSubmissions env st authToken
  | .adminReview iso authToken id body => adminReview env iso st authToken id body

/-- The files after a sequence of requests, handled one after the other. -/
def run (env : Env) (st : State) : List Request → State
  | [] => st
  | r :: rs => run env (handle env st r).state rs

/-! ## Concrete inputs used in the examples -/

/-- An environment with the secret `s3cret`. -/
def env0 : Env :=
  { ADMIN_TOKEN := some "s3cret".toList
    dirname := "/srv".toList
    pathJoin := fun dir p => dir ++ "/".toList ++ p }

/-- The header that `env0` accepts. -/
def auth0 : Option Str := some "Bearer s3cret".toList

/-- A submission with id `1`, as intake stores it. -/
def sub0 : Submission :=
  { id := "1".toList
    timestamp := "2024-01-01T00:00:00.000Z".toList
    artistName := "Band".toList
    youtubeUrl := "https://youtube.com/c/band".toList
    verificationLinks := ["https://example.org/proof".toList]
    otherPlatforms := ["https://open.spotify.com/x".toList, "https://tiktok.com/@y".toList]
    additionalInfo := []
    status := .pending
    reviewed := false }

/-- Files: the submission file holds `subs`, the default catalog path an empty
catalog, nothing else exists. -/
def state0 (subs : List Submission) : State :=
  { submissions := subs
    catalogs := fun p => if p = "/srv/../ai-bands.json".toList then some [] else none }

/-- A catalog entry that is already in the catalog. -/
def entry0 : CatalogEntry :=
  { name := "Earlier".toList
    dateAdded := "2023-12-31".toList
    dateUpdated := none
    comments := none
    tags := ["ai-generated".toList]
    youtube := "https://youtube.com/c/earlier".toList
    urls := ["https://example.org/earlier".toList]
    spotify := none, apple := none, tiktok := none, instagram := none, amazon := none }

/-- Files: the submission file holds `subs`, the default catalog path a catalog
with the one entry `entry0`, nothing else exists. -/
def state1 (subs : List Submission) : State :=
  { submissions := subs
    catalogs := fun p => if p = "/srv/../ai-bands.json".toList then some [entry0] else none }

/-! ## Vocabulary of the properties -/

/-- An authorised review request for the submission id `id` whose action is the
string `action`. -/
def Request.decides (env : Env) (id action : Str) : Request → Prop
  | .adminReview _ authToken id2 body =>
    authorized env authToken = true ∧ id2 = id ∧ body.action = .str action
  | _ => False


/-- A string has no white space at either end. -/
def Trimmed (l : Str) : Prop :=
  (∀ c, l.head? = some c → isWhiteSpace c = false) ∧
  (∀ c, l.getLast? = some c → isWhiteSpace c = false)

/-- A field is a string or absent. -/
def StrOrAbsent (v : JVal) : Prop :=
  v = .undefined ∨ ∃ s, v = .str s

/-- A field is absent or the empty string. -/
def AbsentOrEmpty (v : JVal) : Prop :=
  v = .undefined ∨ v = .str []

/-- A field is a string in which `pat` occurs as a substring. -/
def HasSubstring (v : JVal) (pat : Str) : Prop :=
  ∃ s, v = .str s ∧ pat <:+: s

/-- What `otherPlatforms` becomes for a string or absent field. -/
def fieldLines : JVal → List Str
  | .str s => lines s
  | _ => []

/-- What `additionalInfo` becomes for a string or absent field. -/
def fieldTrim : JVal → Str
  | .str s => trim s
  | _ => []

/-- The pieces joined with a separator of one character, as `xs.join(sep)`. -/
def join (sep : Char) (xs : List Str) : Str :=
  [sep].intercalate xs

/-- The list the specification describes for a multi-line input: the input
split on the line break, each piece trimmed, the pieces that are empty after
trimming removed. -/
def specLines (s : Str) : List Str :=
  ((s.splitOn '\n').map trim).filter fun piece => decide (piece ≠ [])

/-- Every line is trimmed, non-empty and free of line breaks. -/
def NormalLines (ls : List Str) : Prop :=
  ∀ l ∈ ls, Trimmed l ∧ l ≠ [] ∧ '\n' ∉ l

/-- The body that feeds a stored record back into intake: the trimmed fields as
stored, the line sequences joined with the line break. -/
def resubmission (r : Submission) : SubmitBody :=
  { artistName := .str r.artistName
    youtubeUrl := .str r.youtubeUrl
    verificationLinks := .str (join '\n' r.verificationLinks)
    otherPlatforms := .str (join '\n' r.otherPlatforms)
    additionalInfo := .str r.additionalInfo }

/-- The record a review rewrites: `reviewed` set, the status given. -/
def reviewedAs (sub : Submission) (status : Status) : Submission :=
  { sub with status := status, reviewed := true }

/-- The invariant of a stored record: pending exactly when not reviewed. -/
def Consistent (s : Submission) : Prop :=
  (s.status = .pending → s.reviewed = false) ∧ (s.status ≠ .pending → s.reviewed = true)

/-- The five platform kinds. -/
inductive Platform where
  | spotify
  | apple
  | tiktok
  | instagram
  | amazon
  deriving DecidableEq

/-- The fixed, ordered patterns of the specification, each with its kind. -/
def platformPatterns : List (Str × Platform) :=
  [("spotify.com".toList, .spotify), ("music.apple.com".toList, .apple),
   ("tiktok.com".toList, .tiktok), ("instagram.com".toList, .instagram),
   ("amazon.com".toList, .amazon)]

/-- The kind a URL is assigned to: that of the first pattern it contains, none
when it contains no pattern. -/
def classify (url : Str) : Option Platform :=
  (platformPatterns.find? fun pk => decide (pk.1 <:+: url)).map fun pk => pk.2

/-- The platform field of an entry for a kind. -/
def CatalogEntry.platform (e : CatalogEntry) : Platform → Option Str
  | .spotify => e.spotify
  | .apple => e.apple
  | .tiktok => e.tiktok
  | .instagram => e.instagram
  | .amazon => e.amazon

/-! ## Strings: `trim`, `split`, `includes` -/

theorem trim_prefix_dropWhile (s : Str) : trim s <+: s.dropWhile isWhiteSpace :=
  List.rdropWhile_prefix _ _

theorem trim_sublist (s : Str) : (trim s).Sublist s :=
  (trim_prefix_dropWhile s).sublist.trans (List.dropWhile_sublist _)

theorem trimmed_trim (s : Str) : Trimmed (trim s) := by
  constructor
  · intro c hc
    obtain ⟨r, hr⟩ := trim_prefix_dropWhile s
    have h := List.head?_dropWhile_not isWhiteSpace s
    cases ht : trim s with
    | nil => simp [ht] at hc
    | cons a rest =>
      rw [ht] at hc hr
      simp only [List.head?_cons, Option.some.injEq] at hc
      subst hc
      rw [← hr] at h
      simpa using h
  · intro c hc
    cases ht : trim s with
    | nil => simp [ht] at hc
    | cons a rest =>
      have hne : List.rdropWhile isWhiteSpace (s.dropWhile isWhiteSpace) ≠ [] := by
        intro h0
        simp [trim, h0] at ht
      have h := List.rdropWhile_last_not isWhiteSpace _ hne
      have hl : (trim s).getLast? = some (List.getLast _ hne) := List.getLast?_eq_getLast _ hne
      rw [hl] at hc
      simp only [Option.some.injEq] at hc
      rw [← hc]
      simpa using h

theorem trim_eq_self {l : Str} (h : Trimmed l) : trim l = l := by
  have h1 : l.dropWhile isWhiteSpace = l := by
    cases l with
    | nil => rfl
    | cons a rest =>
      have := h.1 a rfl
      simp [List.dropWhile, this]
  unfold trim
  rw [h1, List.rdropWhile_eq_self_iff]
  intro hl
  have := h.2 (l.getLast hl) (List.getLast?_eq_getLast _ hl)
  simp [this]

theorem trim_trim (s : Str) : trim (trim s) = trim s :=
  trim_eq_self (trimmed_trim s)

theorem trim_nil : trim [] = [] := rfl

theorem split_ne_nil (sep : Char) (s : Str) : split sep s ≠ [] := by
  cases s with
  | nil => simp [split]
  | cons c cs =>
    simp only [split]
    split
    · simp
    · split <;> simp

/-- The embedded `split` agrees with the library function `List.splitOn`. -/
theorem split_eq_splitOn (sep : Char) (s : Str) : split sep s = s.splitOn sep := by
  induction s with
  | nil => rfl
  | cons c cs ih =>
    simp only [split, List.splitOn, List.splitOnP_cons, beq_iff_eq]
    rw [ih]
    by_cases h : c = sep
    · simp [h, List.splitOn]
    · simp only [h, if_false, List.splitOn]
      cases hs : List.splitOnP (fun x => x == sep) cs with
      | nil => exact absurd hs (List.splitOnP_ne_nil _ _)
      | cons p ps => rfl

theorem not_mem_of_mem_split (sep : Char) (s : Str) : ∀ l ∈ split sep s, sep ∉ l := by
  induction s with
  | nil => simp [split]
  | cons c cs ih =>
    intro l hl
    simp only [split] at hl
    by_cases h : c = sep
    · simp only [h, if_true, List.mem_cons] at hl
      rcases hl with rfl | hl
      · simp
      · exact ih l hl
    · simp only [h, if_false] at hl
      cases hs : split sep cs with
      | nil => exact absurd hs (split_ne_nil _ _)
      | cons p ps =>
        rw [hs] at hl ih
        simp only [List.mem_cons] at hl
        rcases hl with rfl | hl
        · have hp := ih p (by simp)
          simp only [List.mem_cons, not_or]
          exact ⟨fun e => h e.symm, hp⟩
        · exact ih l (by simp [hl])

/-- Splitting the pieces joined with the separator gives the pieces back, when
there is at least one piece and none contains the separator. -/
theorem split_intercalate (sep : Char) (ls : List Str) (hx : ∀ l ∈ ls, sep ∉ l) (hls : ls ≠ []) :
    split sep ([sep].intercalate ls) = ls := by
  rw [split_eq_splitOn]
  exact List.splitOn_intercalate _ sep hx hls

/-- Joining the pieces of a string with the separator gives the string back. -/
theorem intercalate_split (sep : Char) (s : Str) : [sep].intercalate (split sep s) = s := by
  rw [split_eq_splitOn]
  exact List.intercalate_splitOn _ sep

theorem includes_iff_isInfix (s pat : Str) : includes s pat = true ↔ pat <:+: s := by
  induction s with
  | nil =>
    cases pat <;> simp [includes]
  | cons c cs ih =>
    simp only [includes, Bool.or_eq_true, ih, List.isPrefixOf_iff_prefix]
    rw [List.infix_cons_iff]

/-! ## Authorisation (C4) -/

/-- A header other than `Bearer <secret>` is not authorised. -/
theorem authorized_eq_false (env : Env) (secret : Str) (authToken : Option Str)
    (hsecret : env.ADMIN_TOKEN = some secret)
    (hauth : authToken ≠ some ("Bearer ".toList ++ secret)) :
    authorized env authToken = false := by
  cases authToken with
  | none => rfl
  | some t =>
    have hne : t ≠ "Bearer ".toList ++ secret := fun h => hauth (by rw [h])
    have hdec : decide (t = expectedAuth env) = false := by
      simp only [expectedAuth, hsecret]
      exact decide_eq_false hne
    simp [authorized, hdec]

/-- C4: on both administrative endpoints, a request whose Authorization header is
absent or differs from `Bearer ` followed by the configured secret is answered
with 401, both stores are left as they were, and no file is read or written,
whatever the id and the body (action, aiBandsPath) of the request. -/
theorem unauthorized_admin_request (env : Env) (secret : Str) (st : State)
    (authToken : Option Str) (iso id : Str) (b : ReviewBody)
    (hsecret : env.ADMIN_TOKEN = some secret)
    (hauth : authToken ≠ some ("Bearer ".toList ++ secret)) :
    (adminSubmissions env st authToken).status = 401 ∧
    (adminSubmissions env st authToken).state = st ∧
    (adminSubmissions env st authToken).log = [] ∧
    (adminReview env iso st authToken id b).status = 401 ∧
    (adminReview env iso st authToken id b).state = st ∧
    (adminReview env iso st authToken id b).log = [] := by
  have h := authorized_eq_false env secret authToken hsecret hauth
  simp [adminSubmissions, adminReview, h]

/-- C4 at a concrete request: a wrong secret, an existing id, an approve action. -/
theorem unauthorized_admin_request_witness :
    env0.ADMIN_TOKEN = some "s3cret".toList ∧
    some "Bearer wrong".toList ≠ some ("Bearer ".toList ++ "s3cret".toList) ∧
    (adminSubmissions env0 (state0 [sub0]) (some "Bearer wrong".toList)).status = 401 ∧
    (adminSubmissions env0 (state0 [sub0]) (some "Bearer wrong".toList)).state = state0 [sub0] ∧
    (adminSubmissions env0 (state0 [sub0]) (some "Bearer wrong".toList)).log = [] ∧
    (adminReview env0 [] (state0 [sub0]) (some "Bearer wrong".toList) "1".toList
      ⟨.str "approve".toList, .undefined⟩).status = 401 ∧
    (adminReview env0 [] (state0 [sub0]) (some "Bearer wrong".toList) "1".toList
      ⟨.str "approve".toList, .undefined⟩).state = state0 [sub0] ∧
    (adminReview env0 [] (state0 [sub0]) (some "Bearer wrong".toList) "1".toList
      ⟨.str "approve".toList, .undefined⟩).log = [] :=
  ⟨rfl, by decide,
    unauthorized_admin_request env0 "s3cret".toList (state0 [sub0]) (some "Bearer wrong".toList)
      [] "1".toList ⟨.str "approve".toList, .undefined⟩ rfl (by decide)⟩

/-! ## Validation in intake (C3) -/

theorem truthy_eq_false_iff {v : JVal} (h : StrOrAbsent v) :
    truthy v = false ↔ AbsentOrEmpty v := by
  rcases h with rfl | ⟨s, rfl⟩
  · simp [truthy, AbsentOrEmpty]
  · cases s <;> simp [truthy, AbsentOrEmpty]

theorem invalidYoutubeUrl_str (s : Str) :
    invalidYoutubeUrl (.str s) =
      some (!includes s "youtube.com".toList && !includes s "youtu.be".toList) := by
  simp only [invalidYoutubeUrl, JVal.includes]
  cases includes s "youtube.com".toList <;> rfl

theorem lines_nil : lines [] = [] := by decide

/-- The record built from a body of strings. -/
theorem buildSubmission_str (now : Nat) (iso a y v : Str) (o ad : JVal)
    (ho : StrOrAbsent o) (had : StrOrAbsent ad) :
    buildSubmission now iso ⟨.str a, .str y, .str v, o, ad⟩ =
      some { id := (Nat.repr now).toList, timestamp := iso, artistName := trim a,
             youtubeUrl := trim y, verificationLinks := lines v,
             otherPlatforms := fieldLines o, additionalInfo := fieldTrim ad,
             status := .pending, reviewed := false } := by
  have e1 : optionalLines o = some (fieldLines o) := by
    unfold optionalLines
    rcases ho with rfl | ⟨s, rfl⟩
    · rfl
    · cases s with
      | nil => simp [truthy, fieldLines, lines_nil]
      | cons c cs => simp [truthy, fieldLines, JVal.lines]
  have e2 : optionalTrim ad = some (fieldTrim ad) := by
    unfold optionalTrim
    rcases had with rfl | ⟨s, rfl⟩
    · rfl
    · cases s with
      | nil => simp [truthy, fieldTrim, trim_nil]
      | cons c cs => simp [truthy, fieldTrim, JVal.trim]
  simp only [buildSubmission, e1, e2, JVal.trim, JVal.lines]
  rfl

theorem hasSubstring_str (s pat : Str) :
    HasSubstring (.str s) pat ↔ includes s pat = true := by
  rw [includes_iff_isInfix]
  constructor
  · rintro ⟨t, ht, hpat⟩
    cases ht
    exact hpat
  · intro h
    exact ⟨s, rfl, h⟩

theorem not_hasSubstring_undefined (pat : Str) : ¬ HasSubstring .undefined pat := by
  rintro ⟨t, ht, _⟩
  cases ht

/-- A body whose required fields are non-empty strings and whose URL names
YouTube is accepted: the built record is appended to the store. -/
theorem submitAiBand_accept (env : Env) (now : Nat) (iso : Str) (st : State)
    (a y v : Str) (o ad : JVal) (ho : StrOrAbsent o) (had : StrOrAbsent ad)
    (ha : a ≠ []) (hy : y ≠ []) (hv : v ≠ [])
    (hurl : includes y "youtube.com".toList = true ∨ includes y "youtu.be".toList = true) :
    (submitAiBand env now iso st ⟨.str a, .str y, .str v, o, ad⟩).status = 200 ∧
    (submitAiBand env now iso st ⟨.str a, .str y, .str v, o, ad⟩).state.submissions =
      st.submissions ++
        [{ id := (Nat.repr now).toList, timestamp := iso, artistName := trim a,
           youtubeUrl := trim y, verificationLinks := lines v,
           otherPlatforms := fieldLines o, additionalInfo := fieldTrim ad,
           status := .pending, reviewed := false }] := by
  have hinv : invalidYoutubeUrl (.str y) = some false := by
    rw [invalidYoutubeUrl_str]
    rcases hurl with h | h <;> rw [h] <;> simp
  have ta : truthy (.str a) = true := by cases a <;> simp_all [truthy]
  have ty : truthy (.str y) = true := by cases y <;> simp_all [truthy]
  have tv : truthy (.str v) = true := by cases v <;> simp_all [truthy]
  simp only [submitAiBand, ta, ty, tv, hinv, buildSubmission_str now iso a y v o ad ho had]
  simp

/-- A body with a string or absent URL that names neither host is answered with
400 and nothing is stored, whatever the other fields are. -/
theorem submitAiBand_bad_url (env : Env) (now : Nat) (iso : Str) (st : State) (b : SubmitBody)
    (hy : StrOrAbsent b.youtubeUrl)
    (h1 : ¬ HasSubstring b.youtubeUrl "youtube.com".toList)
    (h2 : ¬ HasSubstring b.youtubeUrl "youtu.be".toList) :
    (submitAiBand env now iso st b).status = 400 ∧
    (submitAiBand env now iso st b).state = st ∧
    (submitAiBand env now iso st b).log = [] := by
  unfold submitAiBand
  split
  · simp
  · rcases hy with hy | ⟨y, hy⟩
    · simp_all [truthy]
    · rw [hy, hasSubstring_str] at h1 h2
      rw [hy, invalidYoutubeUrl_str, Bool.eq_false_iff.mpr h1, Bool.eq_false_iff.mpr h2]
      simp

/-- C3: for a body whose fields are strings or absent, the intake answers 400
exactly when `artistName`, `youtubeUrl` or `verificationLinks` is absent or
empty or `youtubeUrl` contains neither `youtube.com` nor `youtu.be`; a URL
lacking both is rejected whatever the other fields are; and a rejected request
leaves the submission store unchanged, without touching a file. -/
theorem submit_rejects_iff (env : Env) (now : Nat) (iso : Str) (st : State) (b : SubmitBody)
    (s1 : StrOrAbsent b.artistName) (s2 : StrOrAbsent b.youtubeUrl)
    (s3 : StrOrAbsent b.verificationLinks) (s4 : StrOrAbsent b.otherPlatforms)
    (s5 : StrOrAbsent b.additionalInfo) :
    ((submitAiBand env now iso st b).status = 400 ↔
      (AbsentOrEmpty b.artistName ∨ AbsentOrEmpty b.youtubeUrl ∨
        AbsentOrEmpty b.verificationLinks ∨
        (¬ HasSubstring b.youtubeUrl "youtube.com".toList ∧
          ¬ HasSubstring b.youtubeUrl "youtu.be".toList))) ∧
    ((submitAiBand env now iso st b).status = 400 →
      (submitAiBand env now iso st b).state = st ∧ (submitAiBand env now iso st b).log = []) ∧
    (∀ other : SubmitBody, other.youtubeUrl = b.youtubeUrl →
      ¬ HasSubstring b.youtubeUrl "youtube.com".toList →
      ¬ HasSubstring b.youtubeUrl "youtu.be".toList →
      (submitAiBand env now iso st other).status = 400 ∧
      (submitAiBand env now iso st other).state = st) := by
  have key : (submitAiBand env now iso st b).status = 400 ↔
      (AbsentOrEmpty b.artistName ∨ AbsentOrEmpty b.youtubeUrl ∨
        AbsentOrEmpty b.verificationLinks ∨
        (¬ HasSubstring b.youtubeUrl "youtube.com".toList ∧
          ¬ HasSubstring b.youtubeUrl "youtu.be".toList)) := by
    by_cases hurl : ¬ HasSubstring b.youtubeUrl "youtube.com".toList ∧
        ¬ HasSubstring b.youtubeUrl "youtu.be".toList
    · have := submitAiBand_bad_url env now iso st b s2 hurl.1 hurl.2
      exact ⟨fun _ => Or.inr (Or.inr (Or.inr hurl)), fun _ => this.1⟩
    · by_cases hfalsy : AbsentOrEmpty b.artistName ∨ AbsentOrEmpty b.youtubeUrl ∨
          AbsentOrEmpty b.verificationLinks
      · have hf : (!truthy b.artistName || !truthy b.youtubeUrl ||
            !truthy b.verificationLinks) = true := by
          rw [← truthy_eq_false_iff s1, ← truthy_eq_false_iff s2,
            ← truthy_eq_false_iff s3] at hfalsy
          rcases hfalsy with h | h | h <;> simp [h]
        have hst : (submitAiBand env now iso st b).status = 400 := by
          simp [submitAiBand, hf]
        constructor
        · intro _
          rcases hfalsy with h | h | h
          · exact Or.inl h
          · exact Or.inr (Or.inl h)
          · exact Or.inr (Or.inr (Or.inl h))
        · intro _
          exact hst
      · simp only [not_or] at hfalsy
        obtain ⟨a, y, v, o, ad⟩ := b
        simp only at s1 s2 s3 s4 s5 hurl hfalsy ⊢
        rcases s1 with rfl | ⟨a, rfl⟩
        · exact absurd (Or.inl rfl) hfalsy.1
        rcases s2 with rfl | ⟨y, rfl⟩
        · exact absurd (Or.inl rfl) hfalsy.2.1
        rcases s3 with rfl | ⟨v, rfl⟩
        · exact absurd (Or.inl rfl) hfalsy.2.2
        have ha : a ≠ [] := fun h => hfalsy.1 (Or.inr (by rw [h]))
        have hy : y ≠ [] := fun h => hfalsy.2.1 (Or.inr (by rw [h]))
        have hv : v ≠ [] := fun h => hfalsy.2.2 (Or.inr (by rw [h]))
        have hinc : includes y "youtube.com".toList = true ∨
            includes y "youtu.be".toList = true := by
          rw [hasSubstring_str, hasSubstring_str] at hurl
          by_contra hcon
          simp only [not_or] at hcon
          exact hurl ⟨hcon.1, hcon.2⟩
        have hok := submitAiBand_accept env now iso st a y v o ad s4 s5 ha hy hv hinc
        constructor
        · intro h400
          rw [hok.1] at h400
          exact absurd h400 (by decide)
        · rintro (h | h | h | h)
          · exact absurd h hfalsy.1
          · exact absurd h hfalsy.2.1
          · exact absurd h hfalsy.2.2
          · exact absurd h hurl
  refine ⟨key, ?_, ?_⟩
  · unfold submitAiBand
    split
    · intro _
      exact ⟨rfl, rfl⟩
    · cases invalidYoutubeUrl b.youtubeUrl with
      | none => intro _; exact ⟨rfl, rfl⟩
      | some bad =>
        cases bad with
        | true => intro _; exact ⟨rfl, rfl⟩
        | false =>
          cases buildSubmission now iso b with
          | none => intro _; exact ⟨rfl, rfl⟩
          | some r => intro h; exact absurd h (by simp)
  · intro other ho h1 h2
    have := submitAiBand_bad_url env now iso st other (ho ▸ s2) (ho ▸ h1) (ho ▸ h2)
    exact ⟨this.1, this.2.1⟩

/-! ## Normalisation in intake (C8, C9) -/

theorem lines_eq_specLines (s : Str) : lines s = specLines s := by
  unfold lines specLines
  rw [split_eq_splitOn]
  congr 1
  funext piece
  cases piece <;> simp

theorem normalLines_lines (s : Str) : NormalLines (lines s) := by
  intro l hl
  simp only [lines, List.mem_filter, List.mem_map] at hl
  obtain ⟨⟨piece, hpiece, rfl⟩, hne⟩ := hl
  refine ⟨trimmed_trim piece, ?_, ?_⟩
  · intro h
    simp [h] at hne
  · intro hmem
    exact not_mem_of_mem_split '\n' s piece hpiece ((trim_sublist piece).subset hmem)

theorem normalLines_nil : NormalLines [] := by
  intro l hl
  cases hl

theorem lines_join (ls : List Str) (h : NormalLines ls) : lines (join '\n' ls) = ls := by
  by_cases hls : ls = []
  · subst hls
    decide
  · unfold lines join
    rw [split_intercalate '\n' ls (fun l hl => (h l hl).2.2) hls]
    have hmap : ls.map trim = ls := by
      conv_rhs => rw [← List.map_id ls]
      apply List.map_congr_left
      intro l hl
      exact trim_eq_self (h l hl).1
    rw [hmap, List.filter_eq_self]
    intro l hl
    have := (h l hl).2.1
    cases l with
    | nil => exact absurd rfl this
    | cons c cs => rfl

/-- What a built record was built from. -/
theorem buildSubmission_eq_some {now : Nat} {iso : Str} {b : SubmitBody} {r : Submission}
    (h : buildSubmission now iso b = some r) :
    b.artistName.trim = some r.artistName ∧ b.youtubeUrl.trim = some r.youtubeUrl ∧
    b.verificationLinks.lines = some r.verificationLinks ∧
    optionalLines b.otherPlatforms = some r.otherPlatforms ∧
    optionalTrim b.additionalInfo = some r.additionalInfo ∧
    r.status = .pending ∧ r.reviewed = false := by
  simp only [buildSubmission, Option.bind_eq_bind, Option.bind_eq_some, Option.pure_def,
    Option.some.injEq] at h
  obtain ⟨a, ha, y, hy, v, hv, o, ho, ad, had, rfl⟩ := h
  exact ⟨ha, hy, hv, ho, had, rfl, rfl⟩

/-- An accepted request appended the record built from its body. -/
theorem submitAiBand_ok {env : Env} {now : Nat} {iso : Str} {st : State} {b : SubmitBody}
    (h : (submitAiBand env now iso st b).status = 200) :
    ∃ r, buildSubmission now iso b = some r ∧
      (submitAiBand env now iso st b).state.submissions = st.submissions ++ [r] ∧
      (submitAiBand env now iso st b).state.catalogs = st.catalogs := by
  unfold submitAiBand at h ⊢
  split at h
  · exact absurd h (by simp)
  · rename_i hf
    rw [if_neg hf]
    cases hinv : invalidYoutubeUrl b.youtubeUrl with
    | none => rw [hinv] at h; exact absurd h (by simp [internalError])
    | some bad =>
      cases bad with
      | true => rw [hinv] at h; exact absurd h (by simp)
      | false =>
        cases hb : buildSubmission now iso b with
        | none => rw [hinv] at h; simp only [hb] at h; exact absurd h (by simp [internalError])
        | some r => exact ⟨r, rfl, rfl, rfl⟩

theorem normalLines_of_lines {v : JVal} {ls : List Str} (h : v.lines = some ls) :
    ∃ s, v = .str s ∧ ls = lines s := by
  cases v <;> simp [JVal.lines] at h
  exact ⟨_, rfl, h.symm⟩

theorem normalLines_of_optionalLines {v : JVal} {ls : List Str}
    (h : optionalLines v = some ls) : NormalLines ls := by
  unfold optionalLines at h
  split at h
  · obtain ⟨s, _, hs⟩ := normalLines_of_lines h
    exact hs ▸ normalLines_lines s
  · cases h
    exact normalLines_nil

theorem trimmed_of_trim {v : JVal} {t : Str} (h : v.trim = some t) : Trimmed t := by
  cases v <;> simp [JVal.trim] at h
  subst h
  exact trimmed_trim _

theorem trimmed_of_optionalTrim {v : JVal} {t : Str} (h : optionalTrim v = some t) :
    Trimmed t := by
  unfold optionalTrim at h
  split at h
  · exact trimmed_of_trim h
  · cases h
    exact ⟨fun c hc => (by cases hc), fun c hc => (by cases hc)⟩

/-- C8: in an accepted request the stored `verificationLinks` is the input split
on the line break, each piece trimmed, the empty pieces removed (order and
duplicates as they come); likewise `otherPlatforms` for a non-empty input, and
an absent or empty `otherPlatforms` is stored as the empty sequence.  The input
`"a\n\nb \n"` is stored as `["a", "b"]`. -/
theorem stored_lines (env : Env) (now : Nat) (iso : Str) (st : State) (b : SubmitBody)
    (v : Str) (hv : b.verificationLinks = .str v)
    (hok : (submitAiBand env now iso st b).status = 200) :
    (∃ r, (submitAiBand env now iso st b).state.submissions = st.submissions ++ [r] ∧
      r.verificationLinks = specLines v ∧
      (∀ o, b.otherPlatforms = .str o → o ≠ [] → r.otherPlatforms = specLines o) ∧
      (AbsentOrEmpty b.otherPlatforms → r.otherPlatforms = [])) ∧
    (submitAiBand env0 1 [] (state0 [])
        ⟨.str "Band".toList, .str "https://youtu.be/x".toList, .str "a\n\nb \n".toList,
          .undefined, .undefined⟩).state.submissions.map (fun r => r.verificationLinks) =
      [["a".toList, "b".toList]] := by
  refine ⟨?_, by decide⟩
  obtain ⟨r, hb, hsub, _⟩ := submitAiBand_ok hok
  obtain ⟨_, _, hvl, hop, _⟩ := buildSubmission_eq_some hb
  refine ⟨r, hsub, ?_, ?_, ?_⟩
  · rw [hv] at hvl
    simp only [JVal.lines, Option.some.injEq] at hvl
    rw [← hvl, lines_eq_specLines]
  · intro o ho hne
    rw [ho] at hop
    cases o with
    | nil => exact absurd rfl hne
    | cons c cs =>
      simp only [optionalLines, truthy, List.isEmpty_cons, Bool.not_false, if_true, JVal.lines,
        Option.some.injEq] at hop
      rw [← hop, lines_eq_specLines]
  · intro habs
    rcases habs with h | h <;> rw [h] at hop <;>
      simp [optionalLines, truthy] at hop <;> exact hop

/-- C9: intake normalisation is idempotent: for the record stored by an accepted
request, normalising its content again (the strings as stored, the line
sequences joined with the line break) builds a record with the same artistName,
youtubeUrl, additionalInfo, verificationLinks and otherPlatforms; `trim` is
idempotent and normalising the joined normalised lines returns the same list. -/
theorem normalisation_idempotent (env : Env) (now now2 : Nat) (iso iso2 : Str) (st : State)
    (b : SubmitBody) (hok : (submitAiBand env now iso st b).status = 200) :
    (∃ r, (submitAiBand env now iso st b).state.submissions = st.submissions ++ [r] ∧
      ∃ r2, buildSubmission now2 iso2 (resubmission r) = some r2 ∧
        r2.artistName = r.artistName ∧ r2.youtubeUrl = r.youtubeUrl ∧
        r2.additionalInfo = r.additionalInfo ∧
        r2.verificationLinks = r.verificationLinks ∧
        r2.otherPlatforms = r.otherPlatforms) ∧
    (∀ x, trim (trim x) = trim x) ∧
    (∀ s, lines (join '\n' (lines s)) = lines s) := by
  refine ⟨?_, trim_trim, fun s => lines_join _ (normalLines_lines s)⟩
  obtain ⟨r, hb, hsub, _⟩ := submitAiBand_ok hok
  obtain ⟨ha, hy, hvl, hop, had, _, _⟩ := buildSubmission_eq_some hb
  refine ⟨r, hsub, _, buildSubmission_str now2 iso2 _ _ _ _ _ (Or.inr ⟨_, rfl⟩)
    (Or.inr ⟨_, rfl⟩), ?_, ?_, ?_, ?_, ?_⟩
  · exact trim_eq_self (trimmed_of_trim ha)
  · exact trim_eq_self (trimmed_of_trim hy)
  · exact trim_eq_self (trimmed_of_optionalTrim had)
  · obtain ⟨s, _, hs⟩ := normalLines_of_lines hvl
    exact lines_join _ (hs ▸ normalLines_lines s)
  · exact lines_join _ (normalLines_of_optionalLines hop)

/-! ## Review: how the handler changes the files -/

theorem authorized_eq_true (env : Env) (secret : Str) (hsecret : env.ADMIN_TOKEN = some secret) :
    authorized env (some ("Bearer ".toList ++ secret)) = true := by
  have hexp : expectedAuth env = "Bearer ".toList ++ secret := by
    simp only [expectedAuth, hsecret]
  simp only [authorized, hexp, decide_True, Bool.and_true]
  rfl

theorem findIndex_eq_some {α : Type} {p : α → Bool} {l : List α} {i : Nat}
    (h : findIndex p l = some i) : ∃ x, l[i]? = some x ∧ p x = true := by
  induction l generalizing i with
  | nil => simp [findIndex] at h
  | cons a l ih =>
    simp only [findIndex] at h
    by_cases hp : p a = true
    · simp only [hp, if_true, Option.some.injEq] at h
      subst h
      exact ⟨a, by simp, hp⟩
    · simp only [hp, Bool.false_eq_true, if_false, Option.map_eq_some'] at h
      obtain ⟨k, hk, rfl⟩ := h
      obtain ⟨x, hx, hpx⟩ := ih hk
      exact ⟨x, by simpa using hx, hpx⟩

theorem findIndex_of_find? {α : Type} {p : α → Bool} {l : List α} {x : α}
    (h : l.find? p = some x) : ∃ i, findIndex p l = some i ∧ l[i]? = some x := by
  induction l with
  | nil => simp at h
  | cons a l ih =>
    rw [List.find?_cons] at h
    by_cases hp : p a = true
    · simp only [hp, Option.some.injEq] at h
      subst h
      exact ⟨0, by simp [findIndex, hp], by simp⟩
    · have hp2 : p a = false := by simpa using hp
      simp only [hp2] at h
      obtain ⟨i, hi, hx⟩ := ih h
      exact ⟨i + 1, by simp [findIndex, hp2, hi], by simpa using hx⟩

/-- The answer of an authorised review request for a known id, by action. -/
theorem adminReview_found (env : Env) (iso : Str) (st : State) (authToken : Option Str)
    (id : Str) (b : ReviewBody) (idx : Nat) (sub : Submission)
    (hauth : authorized env authToken = true)
    (hidx : findIndex (fun s => decide (s.id = id)) st.submissions = some idx)
    (hsub : st.submissions[idx]? = some sub) :
    (b.action = .str "approve".toList →
      ∀ p, catalogPathArg b.aiBandsPath = some p →
      env.pathJoin env.dirname p ≠ env.SUBMISSIONS_FILE →
      ∀ cat, st.catalogs (env.pathJoin env.dirname p) = some cat →
        (adminReview env iso st authToken id b).status = 200 ∧
        (adminReview env iso st authToken id b).state.submissions =
          st.submissions.set idx (reviewedAs sub .approved) ∧
        (adminReview env iso st authToken id b).state.catalogs =
          Function.update st.catalogs (env.pathJoin env.dirname p)
            (some (cat ++ [derivedEntry iso sub]))) ∧
    (b.action = .str "approve".toList →
      ∀ p, catalogPathArg b.aiBandsPath = some p →
      env.pathJoin env.dirname p = env.SUBMISSIONS_FILE →
        (adminReview env iso st authToken id b).status = 200 ∧
        (adminReview env iso st authToken id b).state.submissions =
          st.submissions.set idx (reviewedAs sub .approved) ∧
        (adminReview env iso st authToken id b).state.catalogs = st.catalogs) ∧
    (b.action = .str "approve".toList →
      (catalogPathArg b.aiBandsPath = none ∨
        ∃ p, catalogPathArg b.aiBandsPath = some p ∧
          env.pathJoin env.dirname p ≠ env.SUBMISSIONS_FILE ∧
          st.catalogs (env.pathJoin env.dirname p) = none) →
        (adminReview env iso st authToken id b).status = 500 ∧
        (adminReview env iso st authToken id b).state = st) ∧
    (b.action = .str "reject".toList →
        (adminReview env iso st authToken id b).status = 200 ∧
        (adminReview env iso st authToken id b).state.submissions =
          st.submissions.set idx (reviewedAs sub .rejected) ∧
        (adminReview env iso st authToken id b).state.catalogs = st.catalogs) ∧
    (b.action ≠ .str "approve".toList → b.action ≠ .str "reject".toList →
        (adminReview env iso st authToken id b).status = 200 ∧
        (adminReview env iso st authToken id b).state.submissions =
          st.submissions.set idx (reviewedAs sub sub.status) ∧
        (adminReview env iso st authToken id b).state.catalogs = st.catalogs) := by
  have hne : "reject".toList ≠ "approve".toList := by decide
  refine ⟨?_, ?_, ?_, ?_, ?_⟩
  · intro hact p hp halias cat hcat
    simp only [adminReview, hauth, hidx, hsub, hact, hp, hcat]
    rw [if_neg halias]
    exact ⟨rfl, rfl, rfl⟩
  · intro hact p hp halias
    simp only [adminReview, hauth, hidx, hsub, hact, hp]
    rw [if_pos halias]
    exact ⟨rfl, rfl, rfl⟩
  · intro hact hfail
    rcases hfail with hp | ⟨p, hp, halias, hcat⟩
    · simp only [adminReview, hauth, hidx, hsub, hact, hp]
      exact ⟨rfl, rfl⟩
    · simp only [adminReview, hauth, hidx, hsub, hact, hp, hcat]
      rw [if_neg halias]
      exact ⟨rfl, rfl⟩
  · intro hact
    simp only [adminReview, hauth, hidx, hsub, hact]
    rw [if_neg hne]
    exact ⟨rfl, rfl, rfl⟩
  · intro h1 h2
    unfold adminReview
    simp only [hauth, hidx, hsub]
    cases hact : b.action with
    | str action =>
      have ha : action ≠ "approve".toList := fun h => h1 (by rw [hact, h])
      have hr : action ≠ "reject".toList := fun h => h2 (by rw [hact, h])
      simp only [Bool.not_true, Bool.false_eq_true, if_false]
      rw [if_neg ha, if_neg hr]
      exact ⟨rfl, rfl, rfl⟩
    | _ => exact ⟨rfl, rfl, rfl⟩

/-- The submission file after a review request: untouched, or, the request
being authorised, one record with the id rewritten with `reviewed` set and a
status that is `approved`, `rejected` or the one it had, by action. -/
theorem adminReview_submissions (env : Env) (iso : Str) (st : State) (authToken : Option Str)
    (id : Str) (b : ReviewBody) :
    (adminReview env iso st authToken id b).state.submissions = st.submissions ∨
    ∃ idx sub status, authorized env authToken = true ∧
      st.submissions[idx]? = some sub ∧ sub.id = id ∧
      ((status = .approved ∧ b.action = .str "approve".toList) ∨
        (status = .rejected ∧ b.action = .str "reject".toList) ∨
        (status = sub.status ∧ b.action ≠ .str "approve".toList ∧
          b.action ≠ .str "reject".toList)) ∧
      (adminReview env iso st authToken id b).state.submissions =
        st.submissions.set idx (reviewedAs sub status) := by
  by_cases hauth : authorized env authToken = true
  · cases hidx : findIndex (fun s => decide (s.id = id)) st.submissions with
    | none =>
      left
      simp [adminReview, hauth, hidx]
    | some idx =>
      obtain ⟨sub, hsub, hid⟩ := findIndex_eq_some hidx
      have hid2 : sub.id = id := by simpa using hid
      obtain ⟨happ, halias, hfail, hrej, hother⟩ :=
        adminReview_found env iso st authToken id b idx sub hauth hidx hsub
      by_cases h1 : b.action = .str "approve".toList
      · cases hp : catalogPathArg b.aiBandsPath with
        | none => exact Or.inl (by rw [(hfail h1 (Or.inl hp)).2])
        | some p =>
          by_cases hal : env.pathJoin env.dirname p = env.SUBMISSIONS_FILE
          · exact Or.inr ⟨idx, sub, .approved, hauth, hsub, hid2, Or.inl ⟨rfl, h1⟩,
              (halias h1 p hp hal).2.1⟩
          · cases hcat : st.catalogs (env.pathJoin env.dirname p) with
            | none => exact Or.inl (by rw [(hfail h1 (Or.inr ⟨p, hp, hal, hcat⟩)).2])
            | some cat =>
              exact Or.inr ⟨idx, sub, .approved, hauth, hsub, hid2, Or.inl ⟨rfl, h1⟩,
                (happ h1 p hp hal cat hcat).2.1⟩
      · by_cases h2 : b.action = .str "reject".toList
        · exact Or.inr ⟨idx, sub, .rejected, hauth, hsub, hid2, Or.inr (Or.inl ⟨rfl, h2⟩),
            (hrej h2).2.1⟩
        · exact Or.inr ⟨idx, sub, sub.status, hauth, hsub, hid2,
            Or.inr (Or.inr ⟨rfl, h1, h2⟩), (hother h1 h2).2.1⟩
  · left
    simp [adminReview, hauth]

/-! ## The store invariant (C1) -/

/-- Intake keeps the invariant, whatever the body. -/
theorem submitAiBand_consistent (env : Env) (now : Nat) (iso : Str) (st : State)
    (b : SubmitBody) (hinv : ∀ s ∈ st.submissions, Consistent s) :
    ∀ s ∈ (submitAiBand env now iso st b).state.submissions, Consistent s := by
  by_cases hok : (submitAiBand env now iso st b).status = 200
  · obtain ⟨r, hb, hsub, _⟩ := submitAiBand_ok hok
    obtain ⟨_, _, _, _, _, hst, hrev⟩ := buildSubmission_eq_some hb
    rw [hsub]
    intro s hs
    rcases List.mem_append.mp hs with h | h
    · exact hinv s h
    · rw [List.mem_singleton] at h
      subst h
      exact ⟨fun _ => hrev, fun h => absurd hst h⟩
  · have hst : (submitAiBand env now iso st b).state = st := by
      unfold submitAiBand at hok ⊢
      split
      · rfl
      · rename_i hf
        rw [if_neg hf] at hok
        cases hi : invalidYoutubeUrl b.youtubeUrl with
        | none => rfl
        | some bad =>
          cases bad with
          | true => rfl
          | false =>
            cases hb : buildSubmission now iso b with
            | none => rfl
            | some r =>
              rw [hi] at hok
              simp only [hb] at hok
              exact absurd trivial hok
    rw [hst]
    exact hinv

/-- A review with the action `approve` or `reject` keeps the invariant. -/
theorem adminReview_consistent (env : Env) (iso : Str) (st : State) (authToken : Option Str)
    (id : Str) (b : ReviewBody)
    (hact : b.action = .str "approve".toList ∨ b.action = .str "reject".toList)
    (hinv : ∀ s ∈ st.submissions, Consistent s) :
    ∀ s ∈ (adminReview env iso st authToken id b).state.submissions, Consistent s := by
  rcases adminReview_submissions env iso st authToken id b with
    h | ⟨idx, sub, status, _, _, _, hst, h⟩
  · rw [h]
    exact hinv
  · rw [h]
    intro s hs
    rcases List.mem_or_eq_of_mem_set hs with hmem | rfl
    · exact hinv s hmem
    · have hne : status ≠ .pending := by
        rcases hst with ⟨rfl, _⟩ | ⟨rfl, _⟩ | ⟨_, h1, h2⟩
        · decide
        · decide
        · rcases hact with ha | ha
          · exact absurd ha h1
          · exact absurd ha h2
      exact ⟨fun hp => absurd hp hne, fun _ => rfl⟩

/-- C1 fails on the code: an authorised review whose body has no `action` finds
the pending submission `1`, answers 200 and stores it with `reviewed = true`
and the status still `pending`, in a store that satisfied the invariant. -/
theorem review_without_action_breaks_invariant :
    (∀ s ∈ (state0 [sub0]).submissions, Consistent s) ∧
    (adminReview env0 [] (state0 [sub0]) auth0 "1".toList ⟨.undefined, .undefined⟩).status = 200 ∧
    (adminReview env0 [] (state0 [sub0]) auth0 "1".toList
        ⟨.undefined, .undefined⟩).state.submissions =
      [{ sub0 with status := .pending, reviewed := true }] ∧
    ¬ (∀ s ∈ (adminReview env0 [] (state0 [sub0]) auth0 "1".toList
          ⟨.undefined, .undefined⟩).state.submissions, Consistent s) := by
  have hsub : (adminReview env0 [] (state0 [sub0]) auth0 "1".toList
        ⟨.undefined, .undefined⟩).state.submissions =
      [{ sub0 with status := .pending, reviewed := true }] := by decide
  refine ⟨?_, by decide, hsub, ?_⟩
  · intro s hs
    have : s = sub0 := by simpa [state0] using hs
    subst this
    exact ⟨fun _ => rfl, fun h => absurd rfl h⟩
  · intro h
    rw [hsub] at h
    have := (h _ (List.mem_singleton.mpr rfl)).1 rfl
    exact absurd this (by decide)

/-! ## Non-empty fields (C2) -/

/-- What holds of every accepted record: the strings are trimmed, the lines are
trimmed and non-empty. -/
theorem accepted_record_trimmed (env : Env) (now : Nat) (iso : Str) (st : State)
    (b : SubmitBody) (hok : (submitAiBand env now iso st b).status = 200) :
    ∃ r, (submitAiBand env now iso st b).state.submissions = st.submissions ++ [r] ∧
      Trimmed r.artistName ∧ Trimmed r.youtubeUrl ∧ Trimmed r.additionalInfo ∧
      (∀ l ∈ r.verificationLinks, l ≠ [] ∧ Trimmed l) ∧
      (∀ l ∈ r.otherPlatforms, l ≠ [] ∧ Trimmed l) := by
  obtain ⟨r, hb, hsub, _⟩ := submitAiBand_ok hok
  obtain ⟨ha, hy, hvl, hop, had, _, _⟩ := buildSubmission_eq_some hb
  refine ⟨r, hsub, trimmed_of_trim ha, trimmed_of_trim hy, trimmed_of_optionalTrim had, ?_, ?_⟩
  · obtain ⟨s, _, hs⟩ := normalLines_of_lines hvl
    intro l hl
    have := (hs ▸ normalLines_lines s) l hl
    exact ⟨this.2.1, this.1⟩
  · intro l hl
    have := normalLines_of_optionalLines hop l hl
    exact ⟨this.2.1, this.1⟩

/-- C2 fails on the code: a body whose `artistName` and `verificationLinks` are
white space only passes the check on the raw fields, is answered with 200, and
is stored with an empty `artistName` and an empty `verificationLinks`. -/
theorem blank_fields_accepted :
    (submitAiBand env0 1 [] (state0 [])
        ⟨.str " ".toList, .str "https://youtube.com/c/x".toList, .str " \n ".toList,
          .undefined, .undefined⟩).status = 200 ∧
    (submitAiBand env0 1 [] (state0 [])
        ⟨.str " ".toList, .str "https://youtube.com/c/x".toList, .str " \n ".toList,
          .undefined, .undefined⟩).state.submissions.map
        (fun r => (r.artistName, r.verificationLinks)) = [([], [])] := by
  decide

/-! ## The derived catalog entry (C5, C6, C7) -/

theorem addPlatform_platform (e : CatalogEntry) (u : Str) (k : Platform) :
    (addPlatform e u).platform k = if classify u = some k then some u else e.platform k := by
  have h1 := includes_iff_isInfix u "spotify.com".toList
  have h2 := includes_iff_isInfix u "music.apple.com".toList
  have h3 := includes_iff_isInfix u "tiktok.com".toList
  have h4 := includes_iff_isInfix u "instagram.com".toList
  have h5 := includes_iff_isInfix u "amazon.com".toList
  unfold addPlatform classify platformPatterns
  by_cases c1 : includes u "spotify.com".toList = true
  · rw [if_pos c1]
    simp only [List.find?, h1.mp c1, decide_True, Option.map_some']
    cases k <;> simp [CatalogEntry.platform]
  rw [if_neg c1]
  have n1 : ¬ "spotify.com".toList <:+: u := fun h => c1 (h1.mpr h)
  by_cases c2 : includes u "music.apple.com".toList = true
  · rw [if_pos c2]
    simp only [List.find?, n1, h2.mp c2, decide_True, decide_False, Option.map_some']
    cases k <;> simp [CatalogEntry.platform]
  rw [if_neg c2]
  have n2 : ¬ "music.apple.com".toList <:+: u := fun h => c2 (h2.mpr h)
  by_cases c3 : includes u "tiktok.com".toList = true
  · rw [if_pos c3]
    simp only [List.find?, n1, n2, h3.mp c3, decide_True, decide_False, Option.map_some']
    cases k <;> simp [CatalogEntry.platform]
  rw [if_neg c3]
  have n3 : ¬ "tiktok.com".toList <:+: u := fun h => c3 (h3.mpr h)
  by_cases c4 : includes u "instagram.com".toList = true
  · rw [if_pos c4]
    simp only [List.find?, n1, n2, n3, h4.mp c4, decide_True, decide_False, Option.map_some']
    cases k <;> simp [CatalogEntry.platform]
  rw [if_neg c4]
  have n4 : ¬ "instagram.com".toList <:+: u := fun h => c4 (h4.mpr h)
  by_cases c5 : includes u "amazon.com".toList = true
  · rw [if_pos c5]
    simp only [List.find?, n1, n2, n3, n4, h5.mp c5, decide_True, decide_False, Option.map_some']
    cases k <;> simp [CatalogEntry.platform]
  rw [if_neg c5]
  have n5 : ¬ "amazon.com".toList <:+: u := fun h => c5 (h5.mpr h)
  simp only [List.find?, n1, n2, n3, n4, n5, decide_False, Option.map_none']
  simp

theorem foldl_addPlatform_platform (us : List Str) (e : CatalogEntry) (k : Platform) :
    (us.foldl addPlatform e).platform k =
      ((us.filter fun u => decide (classify u = some k)).getLast?).or (e.platform k) := by
  induction us using List.reverseRecOn with
  | nil => simp
  | append_singleton us u ih =>
    rw [List.foldl_append, List.foldl_cons, List.foldl_nil, addPlatform_platform, ih,
      List.filter_append]
    by_cases h : classify u = some k
    · simp [h, List.filter_cons]
    · simp [h, List.filter_cons]

theorem newEntry_platform (iso : Str) (s : Submission) (k : Platform) :
    (newEntry iso s).platform k = none := by
  cases k <;> rfl

theorem derivedEntry_eq_foldl (iso : Str) (s : Submission) :
    derivedEntry iso s = s.otherPlatforms.foldl addPlatform (newEntry iso s) := by
  unfold derivedEntry
  split
  · rfl
  · rename_i h
    have : s.otherPlatforms = [] := by
      cases hs : s.otherPlatforms with
      | nil => rfl
      | cons a l => simp [hs] at h
    rw [this]
    rfl

/-- C7: on approval every URL of `otherPlatforms` is assigned to the first
pattern it contains, in the order spotify.com, music.apple.com, tiktok.com,
instagram.com, amazon.com (a URL containing none is dropped); the field of each
kind is the last URL assigned to it and is absent when there is none.  For the
two URLs of the example, `spotify` and `tiktok` are set to them and `apple`,
`instagram`, `amazon` are absent. -/
theorem platform_classification (iso : Str) (s : Submission) (k : Platform) :
    (derivedEntry iso s).platform k =
      (s.otherPlatforms.filter fun u => decide (classify u = some k)).getLast? ∧
    (let e := derivedEntry []
        { sub0 with
          otherPlatforms := ["https://open.spotify.com/x".toList, "https://tiktok.com/@y".toList] }
     e.spotify = some "https://open.spotify.com/x".toList ∧
     e.tiktok = some "https://tiktok.com/@y".toList ∧
     e.apple = none ∧ e.instagram = none ∧ e.amazon = none) := by
  refine ⟨?_, by decide⟩
  rw [derivedEntry_eq_foldl, foldl_addPlatform_platform, newEntry_platform]
  simp

theorem addPlatform_fields (e : CatalogEntry) (u : Str) :
    (addPlatform e u).name = e.name ∧ (addPlatform e u).dateAdded = e.dateAdded ∧
    (addPlatform e u).dateUpdated = e.dateUpdated ∧ (addPlatform e u).comments = e.comments ∧
    (addPlatform e u).tags = e.tags ∧ (addPlatform e u).youtube = e.youtube ∧
    (addPlatform e u).urls = e.urls := by
  unfold addPlatform
  split_ifs <;> exact ⟨rfl, rfl, rfl, rfl, rfl, rfl, rfl⟩

theorem foldl_addPlatform_fields (us : List Str) (e : CatalogEntry) :
    (us.foldl addPlatform e).name = e.name ∧ (us.foldl addPlatform e).dateAdded = e.dateAdded ∧
    (us.foldl addPlatform e).dateUpdated = e.dateUpdated ∧
    (us.foldl addPlatform e).comments = e.comments ∧
    (us.foldl addPlatform e).tags = e.tags ∧ (us.foldl addPlatform e).youtube = e.youtube ∧
    (us.foldl addPlatform e).urls = e.urls := by
  induction us generalizing e with
  | nil => exact ⟨rfl, rfl, rfl, rfl, rfl, rfl, rfl⟩
  | cons u us ih =>
    rw [List.foldl_cons]
    obtain ⟨a1, a2, a3, a4, a5, a6, a7⟩ := addPlatform_fields e u
    obtain ⟨b1, b2, b3, b4, b5, b6, b7⟩ := ih (addPlatform e u)
    exact ⟨b1.trans a1, b2.trans a2, b3.trans a3, b4.trans a4, b5.trans a5, b6.trans a6,
      b7.trans a7⟩

theorem derivedEntry_youtube (iso : Str) (s : Submission) :
    (derivedEntry iso s).youtube = s.youtubeUrl := by
  rw [derivedEntry_eq_foldl]
  exact (foldl_addPlatform_fields s.otherPlatforms (newEntry iso s)).2.2.2.2.2.1

/-- C6 fails on the code as stated: the tag of a derived entry is the string
`ai-generated`, not `generated-by-AI`. -/
theorem derived_tag_is_not_generated_by_AI :
    (derivedEntry "2024-01-02T03:04:05.000Z".toList sub0).tags = ["ai-generated".toList] ∧
    (derivedEntry "2024-01-02T03:04:05.000Z".toList sub0).tags ≠ ["generated-by-AI".toList] := by
  decide

/-- C6, amended: the entry derived on approve has name = the submission's
artistName, dateUpdated = null, comments = the submission's additionalInfo when
that is non-empty and null when it is empty, tags = the one-element sequence
holding `ai-generated`, youtube = the submission's youtubeUrl, and urls = the
submission's verificationLinks, same elements in the same order. -/
theorem derived_entry_fields (iso : Str) (s : Submission) :
    (derivedEntry iso s).name = s.artistName ∧
    (derivedEntry iso s).dateUpdated = none ∧
    (derivedEntry iso s).comments =
      (if s.additionalInfo = [] then none else some s.additionalInfo) ∧
    (derivedEntry iso s).tags = ["ai-generated".toList] ∧
    (derivedEntry iso s).youtube = s.youtubeUrl ∧
    (derivedEntry iso s).urls = s.verificationLinks := by
  rw [derivedEntry_eq_foldl]
  obtain ⟨b1, _, b3, b4, b5, b6, b7⟩ := foldl_addPlatform_fields s.otherPlatforms (newEntry iso s)
  refine ⟨b1, b3, ?_, b5, b6, b7⟩
  rw [b4]
  cases h : s.additionalInfo <;> simp [newEntry, h]

/-- C5 fails on the code as stated: an authorised approve whose `aiBandsPath`
names the submission file is answered with 200, yet no catalog gains an entry:
the file it named holds one record before and one record after (the submission,
now approved), and every catalog file is as it was. -/
theorem approve_into_submission_file_loses_entry :
    env0.pathJoin env0.dirname "submissions.json".toList = env0.SUBMISSIONS_FILE ∧
    (adminReview env0 [] (state1 [sub0]) auth0 "1".toList
        ⟨.str "approve".toList, .str "submissions.json".toList⟩).status = 200 ∧
    (adminReview env0 [] (state1 [sub0]) auth0 "1".toList
        ⟨.str "approve".toList, .str "submissions.json".toList⟩).state.submissions =
      [reviewedAs sub0 .approved] ∧
    (∀ q, (adminReview env0 [] (state1 [sub0]) auth0 "1".toList
        ⟨.str "approve".toList, .str "submissions.json".toList⟩).state.catalogs q =
      (state1 [sub0]).catalogs q) :=
  ⟨by decide, by decide, by decide, fun _ => rfl⟩

/-- C5, amended: when the store holds a submission with the given id (`s` is the
one the handler finds) and the catalog path of the request (`aiBandsPath`, or
`../ai-bands.json` when that is absent or falsy) names a catalog in a file other
than the submission file, an authorised review with the action `approve` is
answered with 200 and leaves that catalog as it was with exactly one entry
appended at the end, whose `youtube` is the `youtubeUrl` of the submission; no
other catalog file changes. -/
theorem approve_appends_entry (env : Env) (secret iso : Str) (st : State) (id : Str)
    (b : ReviewBody) (s : Submission) (p : Str) (cat : List CatalogEntry)
    (hsecret : env.ADMIN_TOKEN = some secret)
    (hact : b.action = .str "approve".toList)
    (hpath : catalogPathArg b.aiBandsPath = some p)
    (halias : env.pathJoin env.dirname p ≠ env.SUBMISSIONS_FILE)
    (hs : st.submissions.find? (fun x => decide (x.id = id)) = some s)
    (hcat : st.catalogs (env.pathJoin env.dirname p) = some cat) :
    (adminReview env iso st (some ("Bearer ".toList ++ secret)) id b).status = 200 ∧
    (∃ e, (adminReview env iso st (some ("Bearer ".toList ++ secret)) id b).state.catalogs
          (env.pathJoin env.dirname p) = some (cat ++ [e]) ∧
        e.youtube = s.youtubeUrl) ∧
    (∀ q, q ≠ env.pathJoin env.dirname p →
      (adminReview env iso st (some ("Bearer ".toList ++ secret)) id b).state.catalogs q =
        st.catalogs q) := by
  obtain ⟨idx, hidx, hsub⟩ := findIndex_of_find? hs
  obtain ⟨happ, _, _, _, _⟩ := adminReview_found env iso st (some ("Bearer ".toList ++ secret))
    id b idx s (authorized_eq_true env secret hsecret) hidx hsub
  obtain ⟨h200, _, hcats⟩ := happ hact p hpath halias cat hcat
  refine ⟨h200, ⟨derivedEntry iso s, ?_, derivedEntry_youtube iso s⟩, ?_⟩
  · rw [hcats, Function.update_same]
  · intro q hq
    rw [hcats, Function.update_noteq hq]

/-! ## Status over a sequence of requests (C10) -/

/-- Intake leaves the stored records in place: the file is unchanged or has one
record more at the end. -/
theorem submitAiBand_submissions (env : Env) (now : Nat) (iso : Str) (st : State)
    (b : SubmitBody) :
    (submitAiBand env now iso st b).state.submissions = st.submissions ∨
    ∃ r, (submitAiBand env now iso st b).state.submissions = st.submissions ++ [r] := by
  unfold submitAiBand
  split
  · exact Or.inl rfl
  · cases invalidYoutubeUrl b.youtubeUrl with
    | none => exact Or.inl rfl
    | some bad =>
      cases bad with
      | true => exact Or.inl rfl
      | false =>
        cases buildSubmission now iso b with
        | none => exact Or.inl rfl
        | some r => exact Or.inr ⟨r, rfl⟩

/-- One request keeps every record at its place with its id, and with its
status unless the request is an authorised review of that id with the action
`approve` (the status is then approved) or `reject` (then rejected). -/
theorem handle_status (env : Env) (st : State) (r : Request) (i : Nat) (s : Submission)
    (hs : st.submissions[i]? = some s) :
    ∃ s2, (handle env st r).state.submissions[i]? = some s2 ∧ s2.id = s.id ∧
      (s2.status = s.status ∨
        (s2.status = .approved ∧ r.decides env s.id "approve".toList) ∨
        (s2.status = .rejected ∧ r.decides env s.id "reject".toList)) := by
  cases r with
  | submit now iso body =>
    rcases submitAiBand_submissions env now iso st body with h | ⟨r, h⟩
    · exact ⟨s, by simp only [handle]; rw [h]; exact hs, rfl, Or.inl rfl⟩
    · refine ⟨s, ?_, rfl, Or.inl rfl⟩
      simp only [handle]
      rw [h, List.getElem?_append_left (List.getElem?_eq_some.mp hs).1]
      exact hs
  | checkPending => exact ⟨s, hs, rfl, Or.inl rfl⟩
  | adminSubmissions authToken =>
    refine ⟨s, ?_, rfl, Or.inl rfl⟩
    simp only [handle, adminSubmissions]
    split <;> exact hs
  | adminReview iso authToken id body =>
    rcases adminReview_submissions env iso st authToken id body with
      h | ⟨idx, sub, status, hauth, hsub, hid, hst, h⟩
    · exact ⟨s, by simp only [handle]; rw [h]; exact hs, rfl, Or.inl rfl⟩
    · simp only [handle]
      rw [h]
      by_cases hi : idx = i
      · subst hi
        rw [hs] at hsub
        cases hsub
        refine ⟨reviewedAs s status, ?_, rfl, ?_⟩
        · rw [List.getElem?_set_self (List.getElem?_eq_some.mp hs).1]
        · rcases hst with ⟨rfl, hact⟩ | ⟨rfl, hact⟩ | ⟨rfl, _⟩
          · exact Or.inr (Or.inl ⟨rfl, hauth, hid.symm, hact⟩)
          · exact Or.inr (Or.inr ⟨rfl, hauth, hid.symm, hact⟩)
          · exact Or.inl rfl
      · exact ⟨s, by rw [List.getElem?_set_ne hi]; exact hs, rfl, Or.inl rfl⟩

/-- C10 fails on the code as stated: after an authorised approve the pending
submission `1` is approved, and a later authorised reject turns it into
rejected. -/
theorem approved_then_rejected :
    (run env0 (state0 [sub0])
        [.adminReview [] auth0 "1".toList ⟨.str "approve".toList, .undefined⟩]).submissions.map
        (fun s => s.status) = [.approved] ∧
    (run env0 (state0 [sub0])
        [.adminReview [] auth0 "1".toList ⟨.str "approve".toList, .undefined⟩,
         .adminReview [] auth0 "1".toList ⟨.str "reject".toList, .undefined⟩]).submissions.map
        (fun s => s.status) = [.rejected] := by
  decide

/-- C10, amended: a decided status never returns to pending and changes only by
a later decision on that submission: for every store and every sequence of
requests (intake, listing, reviews with or without the credential), a record
whose status is approved or rejected is still stored at the same place
afterwards, with the same id and a status that is approved or rejected; that
status is the one it had, unless it is approved and the sequence holds an
authorised review of that id with the action `approve`, or it is rejected and
the sequence holds an authorised review of that id with the action `reject`. -/
theorem decided_changes_only_by_review (env : Env) (rs : List Request) (st : State) (i : Nat)
    (s : Submission) (hs : st.submissions[i]? = some s) (hd : s.status ≠ .pending) :
    ∃ s2, (run env st rs).submissions[i]? = some s2 ∧ s2.id = s.id ∧
      (s2.status = .approved ∨ s2.status = .rejected) ∧
      (s2.status = s.status ∨
        (s2.status = .approved ∧ ∃ r ∈ rs, r.decides env s.id "approve".toList) ∨
        (s2.status = .rejected ∧ ∃ r ∈ rs, r.decides env s.id "reject".toList)) := by
  induction rs generalizing st s with
  | nil =>
    refine ⟨s, hs, rfl, ?_, Or.inl rfl⟩
    cases h : s.status
    · exact absurd h hd
    · exact Or.inl rfl
    · exact Or.inr rfl
  | cons r rs ih =>
    obtain ⟨s1, h1, hid1, hst1⟩ := handle_status env st r i s hs
    have hd1 : s1.status ≠ .pending := by
      rcases hst1 with h | ⟨h, _⟩ | ⟨h, _⟩
      · rw [h]
        exact hd
      · rw [h]
        decide
      · rw [h]
        decide
    obtain ⟨s2, h2, hid2, hdec2, hst2⟩ := ih (handle env st r).state s1 h1 hd1
    refine ⟨s2, h2, hid2.trans hid1, hdec2, ?_⟩
    rw [hid1] at hst2
    rcases hst2 with h | ⟨h, q, hq, hdq⟩ | ⟨h, q, hq, hdq⟩
    · rcases hst1 with h0 | ⟨h0, hr⟩ | ⟨h0, hr⟩
      · exact Or.inl (h.trans h0)
      · exact Or.inr (Or.inl ⟨h.trans h0, r, List.mem_cons_self _ _, hr⟩)
      · exact Or.inr (Or.inr ⟨h.trans h0, r, List.mem_cons_self _ _, hr⟩)
    · exact Or.inr (Or.inl ⟨h, q, List.mem_cons_of_mem _ hq, hdq⟩)
    · exact Or.inr (Or.inr ⟨h, q, List.mem_cons_of_mem _ hq, hdq⟩)

/-- C10, amended, at a concrete run: an approved record, an intake, a review
without the credential, then an authorised reject. -/
theorem decided_changes_only_by_review_witness :
    (state0 [reviewedAs sub0 .approved]).submissions[0]? = some (reviewedAs sub0 .approved) ∧
    (reviewedAs sub0 .approved).status ≠ .pending ∧
    ∃ s2, (run env0 (state0 [reviewedAs sub0 .approved])
          [.submit 2 [] (resubmission sub0),
           .adminReview [] none "1".toList ⟨.str "reject".toList, .undefined⟩,
           .adminReview [] auth0 "1".toList ⟨.str "reject".toList, .undefined⟩]).submissions[0]? =
        some s2 ∧ s2.id = (reviewedAs sub0 .approved).id ∧
      (s2.status = .approved ∨ s2.status = .rejected) ∧
      (s2.status = (reviewedAs sub0 .approved).status ∨
        (s2.status = .approved ∧
          ∃ r ∈ [Request.submit 2 [] (resubmission sub0),
              .adminReview [] none "1".toList ⟨.str "reject".toList, .undefined⟩,
              .adminReview [] auth0 "1".toList ⟨.str "reject".toList, .undefined⟩],
            r.decides env0 (reviewedAs sub0 .approved).id "approve".toList) ∨
        (s2.status = .rejected ∧
          ∃ r ∈ [Request.submit 2 [] (resubmission sub0),
              .adminReview [] none "1".toList ⟨.str "reject".toList, .undefined⟩,
              .adminReview [] auth0 "1".toList ⟨.str "reject".toList, .undefined⟩],
            r.decides env0 (reviewedAs sub0 .approved).id "reject".toList)) :=
  ⟨rfl, by decide,
    decided_changes_only_by_review env0
      [.submit 2 [] (resubmission sub0),
       .adminReview [] none "1".toList ⟨.str "reject".toList, .undefined⟩,
       .adminReview [] auth0 "1".toList ⟨.str "reject".toList, .undefined⟩]
      (state0 [reviewedAs sub0 .approved]) 0 (reviewedAs sub0 .approved) rfl (by decide)⟩

/-! ## The theorems at concrete requests -/

/-- C3 at a concrete body: a URL that names neither host. -/
theorem submit_rejects_iff_witness :
    StrOrAbsent (JVal.str "Band".toList) ∧ StrOrAbsent (JVal.str "https://example.org/x".toList) ∧
    StrOrAbsent (JVal.str "https://example.org/proof".toList) ∧ StrOrAbsent JVal.undefined ∧
    (submitAiBand env0 1 [] (state0 [sub0])
        ⟨.str "Band".toList, .str "https://example.org/x".toList,
          .str "https://example.org/proof".toList, .undefined, .undefined⟩).status = 400 ∧
    (submitAiBand env0 1 [] (state0 [sub0])
        ⟨.str "Band".toList, .str "https://example.org/x".toList,
          .str "https://example.org/proof".toList, .undefined, .undefined⟩).state =
      state0 [sub0] :=
  have h := submit_rejects_iff env0 1 [] (state0 [sub0])
    ⟨.str "Band".toList, .str "https://example.org/x".toList,
      .str "https://example.org/proof".toList, .undefined, .undefined⟩
    (Or.inr ⟨_, rfl⟩) (Or.inr ⟨_, rfl⟩) (Or.inr ⟨_, rfl⟩) (Or.inl rfl) (Or.inl rfl)
  ⟨Or.inr ⟨_, rfl⟩, Or.inr ⟨_, rfl⟩, Or.inr ⟨_, rfl⟩, Or.inl rfl, by decide,
    (h.2.1 (by decide)).1⟩

/-- C8 at a concrete body: three lines, one of them blank. -/
theorem stored_lines_witness :
    (submitAiBand env0 1 [] (state0 [])
        ⟨.str "Band".toList, .str "https://youtu.be/x".toList, .str "a\n\nb \n".toList,
          .str "c\nc".toList, .undefined⟩).status = 200 ∧
    ∃ r, (submitAiBand env0 1 [] (state0 [])
        ⟨.str "Band".toList, .str "https://youtu.be/x".toList, .str "a\n\nb \n".toList,
          .str "c\nc".toList, .undefined⟩).state.submissions = (state0 []).submissions ++ [r] ∧
      r.verificationLinks = specLines "a\n\nb \n".toList ∧
      (∀ o, JVal.str "c\nc".toList = .str o → o ≠ [] → r.otherPlatforms = specLines o) ∧
      (AbsentOrEmpty (JVal.str "c\nc".toList) → r.otherPlatforms = []) :=
  ⟨by decide,
    (stored_lines env0 1 [] (state0 [])
      ⟨.str "Band".toList, .str "https://youtu.be/x".toList, .str "a\n\nb \n".toList,
        .str "c\nc".toList, .undefined⟩ "a\n\nb \n".toList rfl (by decide)).1⟩

/-- C9 at a concrete body with white space around every field. -/
theorem normalisation_idempotent_witness :
    (submitAiBand env0 1 [] (state0 [])
        ⟨.str " Band ".toList, .str " https://youtu.be/x ".toList, .str " a \n\n b \n".toList,
          .str "".toList, .str " info ".toList⟩).status = 200 ∧
    ∃ r, (submitAiBand env0 1 [] (state0 [])
        ⟨.str " Band ".toList, .str " https://youtu.be/x ".toList, .str " a \n\n b \n".toList,
          .str "".toList, .str " info ".toList⟩).state.submissions =
          (state0 []).submissions ++ [r] ∧
      ∃ r2, buildSubmission 2 [] (resubmission r) = some r2 ∧
        r2.artistName = r.artistName ∧ r2.youtubeUrl = r.youtubeUrl ∧
        r2.additionalInfo = r.additionalInfo ∧
        r2.verificationLinks = r.verificationLinks ∧
        r2.otherPlatforms = r.otherPlatforms :=
  ⟨by decide,
    (normalisation_idempotent env0 1 2 [] [] (state0 [])
      ⟨.str " Band ".toList, .str " https://youtu.be/x ".toList, .str " a \n\n b \n".toList,
        .str "".toList, .str " info ".toList⟩ (by decide)).1⟩

/-- C5, amended, at a concrete request: approving submission `1` into the default
catalog, which already holds `entry0`; the earlier entry stays first. -/
theorem approve_appends_entry_witness :
    env0.ADMIN_TOKEN = some "s3cret".toList ∧
    catalogPathArg JVal.undefined = some "../ai-bands.json".toList ∧
    env0.pathJoin env0.dirname "../ai-bands.json".toList ≠ env0.SUBMISSIONS_FILE ∧
    (state1 [sub0]).submissions.find? (fun x => decide (x.id = "1".toList)) = some sub0 ∧
    (state1 [sub0]).catalogs (env0.pathJoin env0.dirname "../ai-bands.json".toList) =
      some [entry0] ∧
    (adminReview env0 [] (state1 [sub0]) (some ("Bearer ".toList ++ "s3cret".toList)) "1".toList
        ⟨.str "approve".toList, .undefined⟩).status = 200 ∧
    (∃ e, (adminReview env0 [] (state1 [sub0]) (some ("Bearer ".toList ++ "s3cret".toList))
          "1".toList ⟨.str "approve".toList, .undefined⟩).state.catalogs
          (env0.pathJoin env0.dirname "../ai-bands.json".toList) = some ([entry0] ++ [e]) ∧
        e.youtube = sub0.youtubeUrl) ∧
    (∀ q, q ≠ env0.pathJoin env0.dirname "../ai-bands.json".toList →
      (adminReview env0 [] (state1 [sub0]) (some ("Bearer ".toList ++ "s3cret".toList))
          "1".toList ⟨.str "approve".toList, .undefined⟩).state.catalogs q =
        (state1 [sub0]).catalogs q) :=
  have h := approve_appends_entry env0 "s3cret".toList [] (state1 [sub0]) "1".toList
    ⟨.str "approve".toList, .undefined⟩ sub0 "../ai-bands.json".toList [entry0] rfl rfl rfl
    (by decide) (by decide) (by decide)
  ⟨rfl, rfl, by decide, by decide, by decide, h.1, h.2.1, h.2.2⟩

end Server
